import Mathlib

/-!
Verification development for the Scatter2 repository (`scripts/viz.py`):
a shallow embedding of the data-harmonization and chart-assembly pipeline
(schema harmonizer, aggregation engine, document composer) together with
proofs of the specification's testable properties.

Tables are lists of rows of cell values; machine floats of the source are
modelled as exact rationals; pandas missing values (`NaN`) are the `null`
cell value; fatal `sys.exit` paths are the `Except.error` branch.
-/

set_option maxHeartbeats 1000000

namespace Scatter2

/-! ### Generic list helpers (pandas primitives) -/

/-- First-seen deduplication: the order contract of pandas `Series.unique`
(keep the first occurrence of each value, in encounter order). -/
def uniqueFS {α : Type} [DecidableEq α] : List α → List α
  | [] => []
  | a :: t => a :: (uniqueFS t).filter (fun b => b ≠ a)

/-- Exact rational addition, written on the normalized-fraction
constructor (`(an*bd + bn*ad) / (ad*bd)`); equal to `Rat.add`. -/
def qAdd (a b : ℚ) : ℚ := mkRat (a.num * b.den + b.num * a.den) (a.den * b.den)

/-- Exact rational halving; equal to division by two. -/
def qHalf (a : ℚ) : ℚ := mkRat a.num (2 * a.den)

/-- Exact rational negation. -/
def qNeg (a : ℚ) : ℚ := mkRat (-a.num) a.den

/-- Index of the first occurrence of `a` (length of the list if absent). -/
def idxOfV {α : Type} [DecidableEq α] (a : α) : List α → Nat
  | [] => 0
  | b :: t => if b = a then 0 else idxOfV a t + 1

/-- First-match association lookup. -/
def alookup {α β : Type} [DecidableEq α] (k : α) : List (α × β) → Option β
  | [] => none
  | e :: t => if e.1 = k then some e.2 else alookup k t

/-! ### Cell values and tables -/

/-- A cell of a loaded CSV frame: a string, a number, or a missing value
(pandas `NaN`/`None`). Floats are modelled as exact rationals. -/
inductive Value : Type where
  | str (s : String)
  | num (q : ℚ)
  | null
  deriving DecidableEq, Repr

abbrev Row := List Value

/-- A data frame: named columns and positional rows. -/
structure Table where
  cols : List String
  rows : List Row
  deriving DecidableEq, Repr

/-- Cell of row `r` at the first column named `c` (walking columns and
cells in lockstep), `none` when no such column or the row is too short. -/
def getCellR : List String → Row → String → Option Value
  | [], _, _ => none
  | _ :: _, [], _ => none
  | c0 :: cs, v :: vs, c => if c0 = c then some v else getCellR cs vs c

/-- Cell of the `i`-th row of `t` in column `c`. -/
def Table.cell (t : Table) (i : Nat) (c : String) : Option Value :=
  (t.rows.get? i).bind (fun r => getCellR t.cols r c)

/-! ### Schema harmonizer (`viz.py`, section 2) -/

/-- Join-key equality: pandas equality on key cells, where a missing value
(`NaN`) never matches anything, itself included. -/
def keyMatches (a b : Option Value) : Bool :=
  match a, b with
  | some (Value.num x), some (Value.num y) => decide (x = y)
  | some (Value.str x), some (Value.str y) => decide (x = y)
  | _, _ => false

/-- Drop the cell of the first column named `c` from a row. -/
def dropCol : List String → Row → String → Row
  | [], vs, _ => vs
  | _ :: _, [], _ => []
  | c0 :: cs, v :: vs, c => if c0 = c then vs else v :: dropCol cs vs c

/-- The merged rows one left row contributes: one extension per matching
right row, or a single `null`-padded extension when nothing matches. -/
def mergeRows (l r : Table) (key : String) (lr : Row) : List Row :=
  let hits := r.rows.filter (fun rr =>
    keyMatches (getCellR l.cols lr key) (getCellR r.cols rr key))
  if hits.isEmpty then
    [lr ++ List.replicate (r.cols.filter (fun c => c ≠ key)).length Value.null]
  else hits.map (fun rr => lr ++ dropCol r.cols rr key)

/-- `left.merge(right, on=key, how="left")` of pandas: result columns are
the left columns then the non-key right columns, names occurring on both
sides (other than the key) suffixed `_x` / `_y`; every left row is paired
with each right row whose key cell matches, or padded with `null` right
cells when no right row matches. -/
def mergeLeft (l r : Table) (key : String) : Table :=
  { cols :=
      l.cols.map (fun c => if c ≠ key ∧ c ∈ r.cols then c ++ "_x" else c)
        ++ (r.cols.filter (fun c => c ≠ key)).map
            (fun c => if c ∈ l.cols then c ++ "_y" else c),
    rows := l.rows.flatMap (mergeRows l r key) }

/-- `needle` is a prefix of `hay`. -/
def startsWithL {α : Type} [DecidableEq α] : List α → List α → Bool
  | [], _ => true
  | _ :: _, [] => false
  | a :: as, b :: bs => a = b && startsWithL as bs

/-- `needle` occurs contiguously inside `hay` (Python's `in` on strings,
applied to character lists). -/
def infixOfL {α : Type} [DecidableEq α] (needle hay : List α) : Bool :=
  match hay with
  | [] => needle.isEmpty
  | _ :: t => startsWithL needle hay || infixOfL needle t

/-- Python's `s.lower()`, as a character list. -/
def lowerL (s : String) : List Char := s.toList.map Char.toLower

/-- Case-insensitive substring test for the literal `"charge"`
(`"charge" in c.lower()` of the source). -/
def containsCharge (c : String) : Bool :=
  infixOfL "charge".toList (lowerL c)

/-- `next((c for c in charges.columns if "charge" in c.lower()), None)`. -/
def findChargeCol (cols : List String) : Option String :=
  cols.find? containsCharge

/-- pandas `rename(columns={old: nw})`: every column named `old` becomes `nw`. -/
def renameCol (t : Table) (old nw : String) : Table :=
  { t with cols := t.cols.map (fun c => if c = old then nw else c) }

/-- Locate the charge-amount column and rename it to the canonical
`"charge"`; fatal exit when no column name contains `"charge"`. -/
def normalizeChargeCol (t : Table) : Except String Table :=
  match findChargeCol t.cols with
  | none => Except.error "No column containing the word 'charge' found."
  | some c => Except.ok (if c = "charge" then t else renameCol t c "charge")

/-- Full matches of the regex `city(_[xy])?`, case-insensitively. -/
def cityPat (c : String) : Bool :=
  lowerL c ∈ ["city".toList, "city_x".toList, "city_y".toList]

/-- Full matches of the regex `lat(_[xy])?`, case-insensitively. -/
def latPat (c : String) : Bool :=
  lowerL c ∈ ["lat".toList, "lat_x".toList, "lat_y".toList]

/-- Full matches of the regex `(lon|lng)(_?[xy])?`, case-insensitively. -/
def lonPat (c : String) : Bool :=
  lowerL c ∈ ["lon".toList, "lng".toList, "lonx".toList, "lony".toList,
              "lon_x".toList, "lon_y".toList, "lngx".toList, "lngy".toList,
              "lng_x".toList, "lng_y".toList]

/-- City fallback of the source: keep `provider_city` if present, else
rename the first column matching `city(_[xy])?`, else append a constant
`"Unknown City"` column. -/
def fixCity (t : Table) : Table :=
  if "provider_city" ∈ t.cols then t
  else
    match t.cols.find? cityPat with
    | some c => renameCol t c "provider_city"
    | none =>
        { cols := t.cols ++ ["provider_city"],
          rows := t.rows.map (fun r => r ++ [Value.str "Unknown City"]) }

/-- Geo-column fallback: keep `wanted` if present, else rename the first
pattern match, else leave the frame unchanged (no sentinel for lat/lon). -/
def fixGeoCol (t : Table) (wanted : String) (pat : String → Bool) : Table :=
  if wanted ∈ t.cols then t
  else
    match t.cols.find? pat with
    | some c => renameCol t c wanted
    | none => t

def fixLatLon (t : Table) : Table :=
  fixGeoCol (fixGeoCol t "lat" latPat) "lon" lonPat

/-- Rename the two procedure columns to generic names when present. -/
def renameProcCols (t : Table) : Table :=
  let t1 := if "procedure_category" ∈ t.cols then
      renameCol t "procedure_category" "proc_category" else t
  if "procedure_sub" ∈ t1.cols then
    renameCol t1 "procedure_sub" "proc_subcategory" else t1

def digitsToNat (ds : List Char) : Nat :=
  ds.foldl (fun n d => 10 * n + (d.toNat - '0'.toNat)) 0

def allDigits (ds : List Char) : Bool := ds.all (fun d => d.isDigit)

/-- Parse an unsigned decimal numeral (digits with an optional single
fractional part). Covers the numeric strings the pipeline's CSV inputs
carry; other spellings coerce to missing, as with `errors="coerce"`. -/
def parseUnsigned (cs : List Char) : Option ℚ :=
  let intPart := cs.takeWhile (fun d => d ≠ '.')
  match cs.dropWhile (fun d => d ≠ '.') with
  | [] =>
      if intPart ≠ [] ∧ allDigits intPart then some (mkRat (digitsToNat intPart) 1)
      else none
  | _ :: frac =>
      if intPart ≠ [] ∧ frac ≠ [] ∧ allDigits intPart ∧ allDigits frac then
        some (mkRat (digitsToNat intPart * 10 ^ frac.length + digitsToNat frac)
          (10 ^ frac.length))
      else none

def parseDecimal (s : String) : Option ℚ :=
  match s.toList with
  | '-' :: rest => (parseUnsigned rest).map qNeg
  | cs => parseUnsigned cs

/-- `pd.to_numeric(x, errors="coerce")` on one cell: numbers pass through,
parseable strings become numbers, everything else becomes missing. -/
def coerceNum : Value → Value
  | Value.num q => Value.num q
  | Value.null => Value.null
  | Value.str s =>
      match parseDecimal s with
      | some q => Value.num q
      | none => Value.null

def numericCols : List String := ["charge", "lat", "lon"]

def coerceRow : List String → Row → Row
  | _, [] => []
  | [], r => r
  | c :: cs, v :: vs => (if c ∈ numericCols then coerceNum v else v) :: coerceRow cs vs

/-- Numeric coercion of the `charge` / `lat` / `lon` columns. -/
def coerceCols (t : Table) : Table :=
  { t with rows := t.rows.map (coerceRow t.cols) }

/-- The whole harmonization stage of `viz.py` section 2, in source order:
charge-column normalization (fatal when absent), `provider_id` presence
check on both inputs (fatal when absent), left merge, city and geo
fallbacks, procedure-column renames, numeric coercion. -/
def harmonize (charges loc : Table) : Except String Table :=
  match normalizeChargeCol charges with
  | Except.error m => Except.error m
  | Except.ok ch =>
      if "provider_id" ∈ ch.cols ∧ "provider_id" ∈ loc.cols then
        Except.ok (coerceCols (renameProcCols (fixLatLon (fixCity
          (mergeLeft ch loc "provider_id")))))
      else Except.error "Both CSVs must contain provider_id for merging."

/-! ### Harmonized records and the aggregation engine (`viz.py`, section 3) -/

/-- One harmonized record, projected onto the canonical columns the three
aggregate views consume; `charge` is the coerced amount (`none` = missing). -/
structure HRecord where
  payer_type : Value
  proc_category : Value
  proc_subcategory : Value
  provider_city : Value
  charge : Option ℚ
  deriving DecidableEq, Repr

/-- Projection of a harmonized frame onto the canonical record shape. -/
def toRecords (t : Table) : List HRecord :=
  t.rows.map (fun r =>
    { payer_type := (getCellR t.cols r "payer_type").getD Value.null,
      proc_category := (getCellR t.cols r "proc_category").getD Value.null,
      proc_subcategory := (getCellR t.cols r "proc_subcategory").getD Value.null,
      provider_city := (getCellR t.cols r "provider_city").getD Value.null,
      charge :=
        match getCellR t.cols r "charge" with
        | some (Value.num q) => some q
        | _ => none })

/-- pandas `sum()` over a charge column: missing values count as zero. -/
def sumCharges (rs : List HRecord) : ℚ :=
  rs.foldr (fun r acc => qAdd (r.charge.getD 0) acc) 0

/-- The distinct group keys of `df.groupby([a, b])`: rows carrying a
missing key are dropped, the remaining key pairs deduplicated. -/
def groupKeys2 (df : List HRecord) (f g : HRecord → Value) : List (Value × Value) :=
  uniqueFS ((df.filter
    (fun r => f r ≠ Value.null ∧ g r ≠ Value.null)).map (fun r => (f r, g r)))

/-- The rows of one `groupby([a, b])` group. -/
def groupRows2 (df : List HRecord) (f g : HRecord → Value) (k : Value × Value) :
    List HRecord :=
  df.filter (fun r => f r = k.1 ∧ g r = k.2)

/-! #### Flow view (sankey) -/

/-- `pd.concat([df[c] for c in sankey_dims])` with dims payer, category, city. -/
def flowConcat (df : List HRecord) : List Value :=
  df.map HRecord.payer_type ++ df.map HRecord.proc_category
    ++ df.map HRecord.provider_city

/-- `all_nodes`: first-seen distinct values of the concatenated columns. -/
def allNodes (df : List HRecord) : List Value := uniqueFS (flowConcat df)

/-- `node_idx[name]`. -/
def nodeIdx (df : List HRecord) (v : Value) : Nat := idxOfV v (allNodes df)

/-- One iteration of the link loop: group by the adjacent dimension pair
`(f, g)`, sum charge, map both keys through `node_idx`. -/
def stageLinks (df : List HRecord) (f g : HRecord → Value) : List (Nat × Nat × ℚ) :=
  (groupKeys2 df f g).map (fun k =>
    (nodeIdx df k.1, nodeIdx df k.2, sumCharges (groupRows2 df f g k)))

/-- The `(src, trg, val)` triples of the sankey: the adjacent stages
payer→category then category→city, concatenated. -/
def flowTriples (df : List HRecord) : List (Nat × Nat × ℚ) :=
  stageLinks df HRecord.payer_type HRecord.proc_category
    ++ stageLinks df HRecord.proc_category HRecord.provider_city

/-! #### Cross-tab view (heat map) -/

def insertSorted (x : ℚ) : List ℚ → List ℚ
  | [] => [x]
  | y :: t => if x ≤ y then x :: y :: t else y :: insertSorted x t

def sortQ : List ℚ → List ℚ
  | [] => []
  | x :: t => insertSorted x (sortQ t)

/-- Median of a sample: middle of the sorted list, or the mean of the two
middle elements when the length is even. -/
def medianQ (l : List ℚ) : ℚ :=
  let s := sortQ l
  if s.length % 2 = 1 then s.getD (s.length / 2) 0
  else qHalf (qAdd (s.getD (s.length / 2 - 1) 0) (s.getD (s.length / 2) 0))

/-- pandas `median()` with skipna: `none` when a group has no non-missing
charge observation (that cell is then `NaN` before `fillna`). -/
def medianOpt (rs : List HRecord) : Option ℚ :=
  let obs := rs.filterMap HRecord.charge
  if obs.isEmpty then none else some (medianQ obs)

/-- Group keys of `df.groupby(["provider_city", "proc_category"])`. -/
def heatKeys (df : List HRecord) : List (Value × Value) :=
  groupKeys2 df HRecord.provider_city HRecord.proc_category

/-- The grouped median frame (`reset_index()` of the median series). -/
def heatGroups (df : List HRecord) : List ((Value × Value) × Option ℚ) :=
  (heatKeys df).map (fun k =>
    (k, medianOpt (groupRows2 df HRecord.provider_city HRecord.proc_category k)))

/-- The pivot's row axis: the distinct cities of the grouped frame. -/
def heatRowDomain (df : List HRecord) : List Value :=
  uniqueFS ((heatKeys df).map Prod.fst)

/-- The pivot's column axis: the distinct categories of the grouped frame. -/
def heatColDomain (df : List HRecord) : List Value :=
  uniqueFS ((heatKeys df).map Prod.snd)

/-- One cell of `pivot(...).fillna(0)`: the group's median where the pair
was observed, zero where the pivot left a hole (or the median was `NaN`). -/
def heatCell (df : List HRecord) (city cat : Value) : ℚ :=
  match alookup (city, cat) (heatGroups df) with
  | some (some m) => m
  | some none => 0
  | none => 0

/-! #### Hierarchy view (treemap) -/

/-- The three-level treemap path key. -/
def key3 (r : HRecord) : Value × Value × Value :=
  (r.proc_category, r.proc_subcategory, r.payer_type)

/-- A record participates in the hierarchy only when its whole path is
non-missing (grouping drops missing keys). -/
def key3ok (r : HRecord) : Bool :=
  r.proc_category ≠ Value.null ∧ r.proc_subcategory ≠ Value.null
    ∧ r.payer_type ≠ Value.null

def treemapLeafKeys (df : List HRecord) : List (Value × Value × Value) :=
  uniqueFS ((df.filter key3ok).map key3)

/-- The leaf groups of the hierarchy view with their summed charge. -/
def treemapLeaves (df : List HRecord) : List ((Value × Value × Value) × ℚ) :=
  (treemapLeafKeys df).map (fun k =>
    (k, sumCharges ((df.filter key3ok).filter (fun r => key3 r = k))))

/-- Total charge of the harmonized record set (missing counts as zero). -/
def totalCharge (df : List HRecord) : ℚ := sumCharges df

/-! ### KPI block and document composer (`viz.py`, sections 5–6) -/

/-- A JSON value of the KPI mapping. -/
inductive Jval : Type where
  | num (q : ℚ)
  | str (s : String)
  | other
  deriving DecidableEq

def Jval.isNum : Jval → Bool
  | Jval.num _ => true
  | _ => false

/-- The KPI input as the composer sees it: the file is absent or
unreadable, readable but not a JSON mapping, or a key-value mapping. -/
inductive KpiInput : Type where
  | absent
  | malformed
  | mapping (kvs : List (String × Jval))
  deriving DecidableEq

def chunk3 : List Char → List (List Char)
  | [] => []
  | a :: b :: c :: t => [a, b, c] :: chunk3 t
  | l => [l]

/-- Thousands grouping of a natural number (the `,` format spec). -/
def commaFmtNat (n : Nat) : String :=
  String.mk (((chunk3 (toString n).toList.reverse).intersperse [',']).flatten.reverse)

/-- Python `f\x7bv:,\x7d`: defined exactly on numbers, raising (`none`)
on any other JSON value. Integer rendering carries thousands separators;
a non-integer rational is rendered as numerator/denominator (the glyphs
of the float case are not load-bearing for any claim). -/
def fmtComma : Jval → Option String
  | Jval.num q =>
      some ((if q.num < 0 then "-" else "") ++ commaFmtNat q.num.natAbs
        ++ (if q.den = 1 then "" else "/" ++ commaFmtNat q.den))
  | _ => none

/-- The row-building loop inside the `try` block: the first value that
fails to format raises, aborting the whole block (`none`). -/
def renderKpiRows : List (String × Jval) → Option String
  | [] => some ""
  | (k, v) :: t =>
      match fmtComma v with
      | none => none
      | some fv =>
          (renderKpiRows t).map (fun rest =>
            "<tr><td><strong>" ++ k ++ "</strong></td><td>" ++ fv ++ "</td></tr>" ++ rest)

/-- `kpi_div`: stays the initial empty string unless the KPI file exists,
parses as a mapping, and every value formats as a number — the
`try`/`except Exception: pass` swallows every failure. -/
def kpiDiv : KpiInput → String
  | KpiInput.absent => ""
  | KpiInput.malformed => ""
  | KpiInput.mapping kvs =>
      match renderKpiRows kvs with
      | none => ""
      | some rows =>
          "<div class=\"card\"><h3>Key Metrics</h3><table>" ++ rows ++ "</table></div>"

/-! Chart bodies: `fig.to_html(full_html=False, include_plotlyjs=False)`
is an external library call; it is modelled as an injective serialization
of the aggregate-view data each figure was built from. -/

def ratStr (q : ℚ) : String := toString q.num ++ "/" ++ toString q.den

def valStr : Value → String
  | Value.str s => "s:" ++ s
  | Value.num q => "n:" ++ ratStr q
  | Value.null => "NaN"

def tripleStr (t : Nat × Nat × ℚ) : String :=
  "(" ++ toString t.1 ++ "," ++ toString t.2.1 ++ "," ++ ratStr t.2.2 ++ ")"

def figDivSankey (df : List HRecord) : String :=
  "<div class=\"plotly-graph-div\">sankey|"
    ++ String.intercalate ";" ((allNodes df).map valStr) ++ "|"
    ++ String.intercalate ";" ((flowTriples df).map tripleStr) ++ "</div>"

def figDivTreemap (df : List HRecord) : String :=
  "<div class=\"plotly-graph-div\">treemap|"
    ++ String.intercalate ";" ((treemapLeaves df).map (fun e =>
        valStr e.1.1 ++ ">" ++ valStr e.1.2.1 ++ ">" ++ valStr e.1.2.2
          ++ "=" ++ ratStr e.2)) ++ "</div>"

def figDivHeatmap (df : List HRecord) : String :=
  "<div class=\"plotly-graph-div\">heatmap|"
    ++ String.intercalate ";" ((heatRowDomain df).map (fun city =>
        valStr city ++ ":" ++ String.intercalate ","
          (((heatColDomain df).map (fun cat => ratStr (heatCell df city cat))))))
    ++ "</div>"

/-- `write_html(..., include_plotlyjs="cdn", full_html=True)`: a complete
standalone document embedding its own rendering-library reference. -/
def standaloneHtml (body : String) : String :=
  "<html><head><script src=\"https://cdn.plot.ly/plotly-2.26.0.min.js\"></script></head><body>"
    ++ body ++ "</body></html>"

/-- Fixed dashboard prologue (the CSS block is presentation only and is
not reproduced). The shared plotly script tag appears here once. -/
def dashHeader : String :=
  "<!DOCTYPE html><html lang=\"en\"><head><meta charset=\"utf-8\"><title>Alabama Medical-Charges Dashboard</title><script src=\"https://cdn.plot.ly/plotly-2.26.0.min.js\"></script></head><body><header><h1>Alabama Medical-Charges Dashboard</h1></header><section class=\"grid\">"

def dashFooter : String := "</section></body></html>"

/-- The dashboard f-string as its list of segments in document order:
prologue, the KPI slot, the three chart cards, epilogue. -/
def dashboardSegments (k : KpiInput) (sankeyDiv treemapDiv heatDiv : String) :
    List String :=
  [dashHeader,
   kpiDiv k,
   "<div class=\"card\" style=\"grid-column:span 2\">" ++ sankeyDiv ++ "</div>",
   "<div class=\"card\">" ++ treemapDiv ++ "</div>",
   "<div class=\"card\">" ++ heatDiv ++ "</div>",
   dashFooter]

def dashboardHtml (k : KpiInput) (sankeyDiv treemapDiv heatDiv : String) : String :=
  String.join (dashboardSegments k sankeyDiv treemapDiv heatDiv)

/-! ### The one-shot batch run (`viz.py` top to bottom) -/

/-- The environment a run observes: whether each required input file
exists, the two loaded tables, and the KPI input. -/
structure Env where
  chargesExists : Bool
  locExists : Bool
  charges : Table
  loc : Table
  kpi : KpiInput
  deriving DecidableEq

/-- The files a successful run writes, in write order (name, content). -/
structure RunOutput where
  files : List (String × String)
  deriving DecidableEq

/-- The linear batch transform of `viz.py`: existence checks (`sys.exit`
on a missing input), harmonization (fatal schema branches as errors),
the three figures, the four documented writes, and the stray
module-level `golden_image` writes of lines 231–232 (where `fig` is
still bound to the last loop iteration's figure, the heatmap). An
`Except.error` run writes nothing. -/
def runPipeline (e : Env) : Except String RunOutput :=
  if ¬ e.chargesExists then
    Except.error "Required file missing: data/charges.csv"
  else if ¬ e.locExists then
    Except.error "Required file missing: data/provider_locations.csv"
  else
    match harmonize e.charges e.loc with
    | Except.error m => Except.error m
    | Except.ok hdf =>
        let recs := toRecords hdf
        let sank := figDivSankey recs
        let tre := figDivTreemap recs
        let hea := figDivHeatmap recs
        Except.ok { files :=
          [("outputs/fig_sankey.html", standaloneHtml sank),
           ("outputs/fig_treemap.html", standaloneHtml tre),
           ("outputs/fig_heatmap.html", standaloneHtml hea),
           ("outputs/dashboard.html", dashboardHtml e.kpi sank tre hea),
           ("./golden_image.html", standaloneHtml hea),
           ("./golden_image.png", "png-render:" ++ hea)] }

/-! ### Concrete fixtures (the spec's unknown-provider scenario) -/

/-- Charges input of the scenario: three rows for provider 1 (amounts
100, 200, 300, all Cardiology/Private/2023-01) and one row for the
unknown provider 99; charge-amount column named `charge_amount`. This
variant carries no geographic columns of its own. -/
def chargesScen : Table :=
  { cols := ["provider_id", "payer_type", "procedure_category", "procedure_sub",
             "month", "charge_amount"],
    rows :=
      [[Value.num 1, Value.str "Private", Value.str "Cardiology", Value.str "Stent",
        Value.str "2023-01", Value.num 100],
       [Value.num 1, Value.str "Private", Value.str "Cardiology", Value.str "Stent",
        Value.str "2023-01", Value.num 200],
       [Value.num 1, Value.str "Private", Value.str "Cardiology", Value.str "Stent",
        Value.str "2023-01", Value.num 300],
       [Value.num 99, Value.str "Private", Value.str "Cardiology", Value.str "Stent",
        Value.str "2023-01", Value.num 400]] }

/-- Provider-locations input of the scenario: providers 1 and 2. -/
def locScen : Table :=
  { cols := ["provider_id", "provider_name", "city", "lat", "lon"],
    rows :=
      [[Value.num 1, Value.str "BIR-Med 1", Value.str "Birmingham",
        Value.num 33, Value.num (-86)],
       [Value.num 2, Value.str "MON-Med 2", Value.str "Montgomery",
        Value.num 32, Value.num (-86)]] }

/-- Provider-locations variant with no city column at all. -/
def locScenNoCity : Table :=
  { cols := ["provider_id", "provider_name"],
    rows :=
      [[Value.num 1, Value.str "BIR-Med 1"],
       [Value.num 2, Value.str "MON-Med 2"]] }

/-- A fully valid run environment over the scenario inputs. -/
def envRunOk : Env :=
  { chargesExists := true, locExists := true,
    charges := chargesScen, loc := locScen,
    kpi := KpiInput.mapping [("average_charge", Jval.num 250)] }

/-! ### Theorems -/

/-- A successful key match determines the matched cell: it carries
exactly the probe's (non-missing) value. -/
theorem keyMatches_true_eq (k x : Option Value) (h : keyMatches k x = true) :
    x = k := by
  cases k with
  | none => simp [keyMatches] at h
  | some v =>
      cases x with
      | none => cases v <;> simp [keyMatches] at h
      | some w =>
          cases v with
          | str s => cases w <;> simp [keyMatches] at h; simp [h]
          | num q => cases w <;> simp [keyMatches] at h; simp [h]
          | null => cases w <;> simp [keyMatches] at h

/-- Under pairwise-distinct right keys, at most one right row matches a
given probe key. -/
theorem filter_keyMatches_length_le_one (rows : List Row) (cols : List String)
    (key : String) (k : Option Value)
    (hnd : (rows.map (fun rr => getCellR cols rr key)).Nodup) :
    (rows.filter (fun rr => keyMatches k (getCellR cols rr key))).length ≤ 1 := by
  induction rows with
  | nil => simp
  | cons a t ih =>
      simp only [List.map_cons, List.nodup_cons] at hnd
      obtain ⟨hnotin, hnd2⟩ := hnd
      by_cases ha : keyMatches k (getCellR cols a key) = true
      · have hrest : t.filter (fun rr => keyMatches k (getCellR cols rr key)) = [] := by
          rw [List.filter_eq_nil_iff]
          intro rr hrr hmatch
          have h1 := keyMatches_true_eq k _ ha
          have h2 := keyMatches_true_eq k _ (by simpa using hmatch)
          exact hnotin (h1 ▸ h2 ▸ List.mem_map_of_mem _ hrr)
        simp [List.filter_cons, ha, hrest]
      · rw [List.filter_cons_of_neg (by simpa using ha)]
        exact ih hnd2

/-- With distinct right keys every left row contributes exactly one
merged row. -/
theorem mergeRows_length_one (l r : Table) (key : String) (lr : Row)
    (hnd : (r.rows.map (fun rr => getCellR r.cols rr key)).Nodup) :
    (mergeRows l r key lr).length = 1 := by
  unfold mergeRows
  by_cases he :
      (r.rows.filter (fun rr =>
        keyMatches (getCellR l.cols lr key) (getCellR r.cols rr key))).isEmpty
  · simp [he]
  · rw [if_neg (by simpa using he), List.length_map]
    have hle := filter_keyMatches_length_le_one r.rows r.cols key
      (getCellR l.cols lr key) hnd
    have hge : (r.rows.filter (fun rr =>
        keyMatches (getCellR l.cols lr key) (getCellR r.cols rr key))).length ≠ 0 := by
      intro h0
      exact he (by rwa [List.isEmpty_iff_length_eq_zero])
    omega

/-- C1: with unique provider identifiers in the locations table the left
outer join preserves charge rows exactly — the merged row count equals
the charges row count (none dropped, none duplicated) — and a charge row
with no matching provider appears in the merged rows padded with `null`
cells for all provider-side fields. -/
theorem left_join_preserves_rows (charges loc : Table)
    (hnd : (loc.rows.map (fun rr => getCellR loc.cols rr "provider_id")).Nodup) :
    (mergeLeft charges loc "provider_id").rows.length = charges.rows.length
    ∧ ∀ r ∈ charges.rows,
        (∀ rr ∈ loc.rows,
          keyMatches (getCellR charges.cols r "provider_id")
            (getCellR loc.cols rr "provider_id") = false) →
        (r ++ List.replicate
            (loc.cols.filter (fun c => c ≠ "provider_id")).length Value.null)
          ∈ (mergeLeft charges loc "provider_id").rows := by
  constructor
  · show (charges.rows.flatMap (mergeRows charges loc "provider_id")).length
        = charges.rows.length
    induction charges.rows with
    | nil => rfl
    | cons a t ih =>
        simp only [List.flatMap_cons, List.length_append, ih,
          mergeRows_length_one charges loc "provider_id" a hnd, List.length_cons]
        omega
  · intro r hr hnomatch
    have hit : loc.rows.filter (fun rr =>
        keyMatches (getCellR charges.cols r "provider_id")
          (getCellR loc.cols rr "provider_id")) = [] := by
      rw [List.filter_eq_nil_iff]
      intro rr hrr hmatch
      exact absurd (hnomatch rr hrr) (by simpa using hmatch)
    refine List.mem_flatMap.2 ⟨r, hr, ?_⟩
    simp [mergeRows, hit]

theorem left_join_preserves_rows_witness :
    (mergeLeft chargesScen locScen "provider_id").rows.length
      = chargesScen.rows.length
    ∧ ([Value.num 99, Value.str "Private", Value.str "Cardiology",
        Value.str "Stent", Value.str "2023-01", Value.num 400]
          ++ List.replicate
              (locScen.cols.filter (fun c => c ≠ "provider_id")).length Value.null)
        ∈ (mergeLeft chargesScen locScen "provider_id").rows :=
  ⟨(left_join_preserves_rows chargesScen locScen (by decide)).1,
   (left_join_preserves_rows chargesScen locScen (by decide)).2
     [Value.num 99, Value.str "Private", Value.str "Cardiology",
      Value.str "Stent", Value.str "2023-01", Value.num 400]
     (by decide) (by decide)⟩

/-- C6 counterexample: in the unknown-provider scenario the harmonized
row for provider 99 carries a `null` city, not the `"Unknown City"`
sentinel the claim promises for unresolvable providers. -/
theorem unknown_city_counterexample :
    (harmonize chargesScen locScen).toOption.map (fun t => t.cell 3 "provider_city")
      = some (some Value.null)
    ∧ Value.null ≠ Value.str "Unknown City" :=
  ⟨by decide, by decide⟩

/-- C6 amended: the harmonizer assigns city values per frame, not per
row. In the scenario the merged set has 4 rows; the 3 rows of provider 1
resolve to Birmingham and the unknown-provider row's city is `null`
(missing). The `"Unknown City"` sentinel is used only when the merged
frame has no city-like column at all, and then it applies to every row,
matched or not. -/
theorem unknown_city_amended :
    ((harmonize chargesScen locScen).toOption.map (fun t =>
        (t.rows.length,
         [t.cell 0 "provider_city", t.cell 1 "provider_city",
          t.cell 2 "provider_city", t.cell 3 "provider_city"]))
      = some (4,
          [some (Value.str "Birmingham"), some (Value.str "Birmingham"),
           some (Value.str "Birmingham"), some Value.null]))
  ∧ ((harmonize chargesScen locScenNoCity).toOption.map
        (fun t => t.rows.map (fun r => getCellR t.cols r "provider_city"))
      = some
          [some (Value.str "Unknown City"), some (Value.str "Unknown City"),
           some (Value.str "Unknown City"), some (Value.str "Unknown City")]) :=
  ⟨by decide, by decide⟩

/-- C7: each structural input failure — a missing charges file, a missing
provider-locations file, no charge-amount column, or a missing
`provider_id` join key — aborts the run with its diagnostic message; an
aborted run produces no `RunOutput`, so no artifact is written. -/
theorem fatal_inputs_abort (e : Env) :
    (e.chargesExists = false →
       runPipeline e = Except.error "Required file missing: data/charges.csv")
  ∧ (e.chargesExists = true → e.locExists = false →
       runPipeline e = Except.error "Required file missing: data/provider_locations.csv")
  ∧ (e.chargesExists = true → e.locExists = true →
       findChargeCol e.charges.cols = none →
       runPipeline e = Except.error "No column containing the word 'charge' found.")
  ∧ (∀ ch, e.chargesExists = true → e.locExists = true →
       normalizeChargeCol e.charges = Except.ok ch →
       ¬("provider_id" ∈ ch.cols ∧ "provider_id" ∈ e.loc.cols) →
       runPipeline e = Except.error "Both CSVs must contain provider_id for merging.")
  ∧ (∀ m, runPipeline e = Except.error m → ∀ out, runPipeline e ≠ Except.ok out) := by
  refine ⟨?_, ?_, ?_, ?_, ?_⟩
  · intro h; simp [runPipeline, h]
  · intro h1 h2; simp [runPipeline, h1, h2]
  · intro h1 h2 h3
    simp [runPipeline, h1, h2, harmonize, normalizeChargeCol, h3]
  · intro ch h1 h2 hok hninc
    simp only [runPipeline, h1, h2, Bool.not_true, if_false, harmonize, hok,
      Bool.false_eq_true, not_false_eq_true, if_neg hninc]
    simp
  · intro m hm out
    rw [hm]; intro hcontra; exact Except.noConfusion hcontra

/-- C7 witness environments. -/
def envNoCharges : Env :=
  { chargesExists := false, locExists := true,
    charges := chargesScen, loc := locScen, kpi := KpiInput.absent }

def envNoKey : Env :=
  { chargesExists := true, locExists := true,
    charges := { cols := ["pid", "charge"], rows := [] },
    loc := locScen, kpi := KpiInput.absent }

theorem fatal_inputs_abort_witness :
    runPipeline envNoCharges = Except.error "Required file missing: data/charges.csv"
    ∧ runPipeline envNoKey = Except.error "Both CSVs must contain provider_id for merging." :=
  ⟨(fatal_inputs_abort envNoCharges).1 (by decide),
   (fatal_inputs_abort envNoKey).2.2.2.1 { cols := ["pid", "charge"], rows := [] }
     (by decide) (by decide) (by rfl) (by decide)⟩

/-- C9 evaluation: a successful run over the scenario inputs writes six
files, not the four the documentation lists — the two stray
`golden_image` artifacts of `viz.py` lines 231–232 come after the four
documented writes. -/
theorem golden_image_extra_writes :
    (runPipeline envRunOk).toOption.map (fun out => out.files.map Prod.fst)
      = some
          ["outputs/fig_sankey.html", "outputs/fig_treemap.html",
           "outputs/fig_heatmap.html", "outputs/dashboard.html",
           "./golden_image.html", "./golden_image.png"]
    ∧ ["outputs/fig_sankey.html", "outputs/fig_treemap.html",
       "outputs/fig_heatmap.html", "outputs/dashboard.html",
       "./golden_image.html", "./golden_image.png"] ≠
        ["outputs/fig_sankey.html", "outputs/fig_treemap.html",
         "outputs/fig_heatmap.html", "outputs/dashboard.html"] :=
  ⟨by decide, by decide⟩

/-- Renaming a column to itself changes nothing. -/
theorem renameCol_self (t : Table) (c : String) : renameCol t c c = t := by
  cases t with
  | mk cols rows =>
      simp only [renameCol, Table.mk.injEq, and_true]
      induction cols with
      | nil => rfl
      | cons a t2 ih =>
          simp only [List.map_cons, List.cons.injEq]
          exact ⟨by split <;> simp_all, ih⟩

/-- After renaming the column the charge search found to `"charge"`, the
search finds `"charge"` itself (every earlier column still fails). -/
theorem findChargeCol_renameCol (cols : List String) (c : String)
    (h : cols.find? containsCharge = some c) :
    (cols.map (fun x => if x = c then "charge" else x)).find? containsCharge
      = some "charge" := by
  have hc : containsCharge c = true := List.find?_some h
  induction cols with
  | nil => simp at h
  | cons a t ih =>
      by_cases ha : containsCharge a = true
      · rw [List.find?_cons_of_pos _ ha] at h
        injection h with h2
        subst h2
        simp only [List.map_cons, eq_self_iff_true, if_true]
        exact List.find?_cons_of_pos _ (by decide)
      · rw [List.find?_cons_of_neg _ (by simp [ha])] at h
        have hne : a ≠ c := fun hh => ha (hh ▸ hc)
        simp only [List.map_cons, if_neg hne]
        rw [List.find?_cons_of_neg _ (by simp [ha])]
        exact ih h

/-- C5: the harmonizer locates the charge-amount column by
case-insensitive substring match on the literal `"charge"` and renames it
to the canonical name; normalizing the already-renamed table is the
identity, so the pipeline proceeds identically on the renamed input; and
when no column matches, the operation fails with the fatal schema error. -/
theorem charge_col_normalization (t : Table) :
    ((∀ c ∈ t.cols, containsCharge c = false) →
      normalizeChargeCol t
        = Except.error "No column containing the word 'charge' found.")
    ∧ (∀ c, findChargeCol t.cols = some c →
        containsCharge c = true
        ∧ normalizeChargeCol t = Except.ok (renameCol t c "charge")
        ∧ "charge" ∈ (renameCol t c "charge").cols
        ∧ normalizeChargeCol (renameCol t c "charge")
            = Except.ok (renameCol t c "charge")
        ∧ ∀ loc, harmonize t loc = harmonize (renameCol t c "charge") loc) := by
  constructor
  · intro hall
    have hnone : findChargeCol t.cols = none :=
      List.find?_eq_none.2 (by intro x hx; simp [hall x hx])
    simp [normalizeChargeCol, hnone]
  · intro c hc
    have hcc : containsCharge c = true := List.find?_some hc
    have hmem : c ∈ t.cols := List.mem_of_find?_eq_some hc
    have hren : normalizeChargeCol t = Except.ok (renameCol t c "charge") := by
      by_cases h : c = "charge"
      · subst h; simp [normalizeChargeCol, hc, renameCol_self]
      · simp [normalizeChargeCol, hc, h]
    have hfind2 : findChargeCol (renameCol t c "charge").cols = some "charge" := by
      simpa [renameCol, findChargeCol] using findChargeCol_renameCol t.cols c hc
    have hren2 : normalizeChargeCol (renameCol t c "charge")
        = Except.ok (renameCol t c "charge") := by
      simp [normalizeChargeCol, hfind2]
    refine ⟨hcc, hren, List.mem_map.2 ⟨c, hmem, by simp⟩, hren2, ?_⟩
    intro loc
    simp [harmonize, hren, hren2]

def tableAmountCharged : Table :=
  { cols := ["provider_id", "amount_charged"], rows := [] }

theorem charge_col_normalization_witness :
    normalizeChargeCol tableAmountCharged
      = Except.ok (renameCol tableAmountCharged "amount_charged" "charge")
    ∧ normalizeChargeCol { cols := ["provider_id", "month"], rows := ([] : List Row) }
        = Except.error "No column containing the word 'charge' found." :=
  ⟨((charge_col_normalization tableAmountCharged).2 "amount_charged" (by decide)).2.1,
   (charge_col_normalization _).1 (by decide)⟩

/-- C8: with the KPI input absent or malformed the composer degrades
silently: the KPI slot renders as the empty string, the dashboard
document is identical in the two cases, the three chart cards all still
appear among the dashboard segments, and a run that succeeds with any
KPI input succeeds with the KPI input absent. -/
theorem kpi_optional_degrade :
    (∀ sdiv tdiv hdiv : String,
      kpiDiv KpiInput.absent = ""
      ∧ kpiDiv KpiInput.malformed = ""
      ∧ dashboardHtml KpiInput.absent sdiv tdiv hdiv
          = dashboardHtml KpiInput.malformed sdiv tdiv hdiv
      ∧ ("<div class=\"card\" style=\"grid-column:span 2\">" ++ sdiv ++ "</div>")
          ∈ dashboardSegments KpiInput.absent sdiv tdiv hdiv
      ∧ ("<div class=\"card\">" ++ tdiv ++ "</div>")
          ∈ dashboardSegments KpiInput.absent sdiv tdiv hdiv
      ∧ ("<div class=\"card\">" ++ hdiv ++ "</div>")
          ∈ dashboardSegments KpiInput.absent sdiv tdiv hdiv)
    ∧ (∀ e out, runPipeline e = Except.ok out →
        ∃ outA, runPipeline { e with kpi := KpiInput.absent } = Except.ok outA) := by
  constructor
  · intro sdiv tdiv hdiv
    refine ⟨rfl, rfl, rfl, ?_, ?_, ?_⟩ <;> simp [dashboardSegments]
  · intro e out h
    by_cases hc : e.chargesExists <;> by_cases hl : e.locExists <;>
      simp only [runPipeline, hc, hl, Bool.not_true, Bool.not_false,
        if_true, if_false, not_true_eq_false, not_false_eq_true] at h ⊢
    · cases hh : harmonize e.charges e.loc with
      | error m => rw [hh] at h; exact absurd h (by simp)
      | ok hdf => exact ⟨_, rfl⟩
    · exact absurd h (by simp)
    · exact absurd h (by simp)
    · exact absurd h (by simp)

theorem kpi_optional_degrade_witness :
    kpiDiv KpiInput.absent = ""
    ∧ ∃ outA, runPipeline { envRunOk with kpi := KpiInput.absent } = Except.ok outA :=
  ⟨(kpi_optional_degrade.1 "" "" "").1,
   kpi_optional_degrade.2 envRunOk
     ((runPipeline envRunOk).toOption.getD { files := [] }) (by rfl)⟩

/-- The reducible rational addition is rational addition. -/
theorem qAdd_eq_add (a b : ℚ) : qAdd a b = a + b := by
  have ha : (a.den : ℚ) ≠ 0 := Nat.cast_ne_zero.2 a.den_nz
  have hb : (b.den : ℚ) ≠ 0 := Nat.cast_ne_zero.2 b.den_nz
  rw [qAdd, Rat.mkRat_eq_div]
  conv_rhs => rw [← Rat.num_div_den a, ← Rat.num_div_den b, div_add_div _ _ ha hb]
  push_cast
  ring_nf

/-- `sumCharges` is the plain sum of the (zero-defaulted) charges. -/
theorem sumCharges_eq (rs : List HRecord) :
    sumCharges rs = (rs.map (fun r => r.charge.getD 0)).sum := by
  induction rs with
  | nil => rfl
  | cons a t ih =>
      show qAdd (a.charge.getD 0) (sumCharges t) = _
      rw [qAdd_eq_add, ih, List.map_cons, List.sum_cons]

/-- First-seen deduplication keeps exactly the members. -/
theorem mem_uniqueFS {α : Type} [DecidableEq α] (l : List α) (a : α) :
    a ∈ uniqueFS l ↔ a ∈ l := by
  induction l with
  | nil => simp [uniqueFS]
  | cons b t ih =>
      simp only [uniqueFS, List.mem_cons, List.mem_filter]
      by_cases hab : a = b
      · simp [hab]
      · simp [hab, ih]

/-- First-seen deduplication yields pairwise-distinct values. -/
theorem nodup_uniqueFS {α : Type} [DecidableEq α] (l : List α) :
    (uniqueFS l).Nodup := by
  induction l with
  | nil => simp [uniqueFS]
  | cons b t ih =>
      simp only [uniqueFS, List.nodup_cons]
      refine ⟨fun hmem => ?_, List.Nodup.filter _ ih⟩
      rcases List.mem_filter.1 hmem with ⟨_, hne⟩
      simp at hne

/-- Summing over a disjunction of disjoint filters splits the sum. -/
theorem sum_filter_disjoint {α : Type} (l : List α) (p q : α → Bool) (w : α → ℚ)
    (hdisj : ∀ a ∈ l, ¬(p a = true ∧ q a = true)) :
    ((l.filter (fun a => p a || q a)).map w).sum
      = ((l.filter p).map w).sum + ((l.filter q).map w).sum := by
  induction l with
  | nil => simp
  | cons a t ih =>
      have ht := ih (fun x hx => hdisj x (List.mem_cons_of_mem _ hx))
      by_cases hp : p a = true
      · have hq : q a = false := by
          rcases Bool.eq_false_or_eq_true (q a) with h | h
          · exact absurd ⟨hp, h⟩ (hdisj a (by simp))
          · exact h
        simp only [List.filter_cons, hp, hq, Bool.true_or, if_true, if_false,
          List.map_cons, List.sum_cons, ht, Bool.false_eq_true]
        ring
      · by_cases hq : q a = true
        · simp only [List.filter_cons, Bool.of_not_eq_true hp, hq, Bool.false_or,
            if_true, if_false, List.map_cons, List.sum_cons, ht, Bool.false_eq_true]
          ring
        · simp only [List.filter_cons, Bool.of_not_eq_true hp,
            Bool.of_not_eq_true hq, Bool.false_or, if_false, ht, Bool.false_eq_true]

/-- Grouping a weighted list by pairwise-distinct keys and summing each
group adds up to the sum over the rows whose key is listed. -/
theorem sum_over_keys {κ α : Type} [DecidableEq κ] (l : List α)
    (key : α → κ) (w : α → ℚ) (ks : List κ) (hnd : ks.Nodup) :
    (ks.map (fun k => ((l.filter (fun a => key a = k)).map w).sum)).sum
      = ((l.filter (fun a => key a ∈ ks)).map w).sum := by
  induction ks with
  | nil => simp
  | cons k kt ih =>
      simp only [List.nodup_cons] at hnd
      obtain ⟨hk, hnd2⟩ := hnd
      rw [List.map_cons, List.sum_cons, ih hnd2]
      have hdisj : ∀ a ∈ l,
          ¬(decide (key a = k) = true ∧ decide (key a ∈ kt) = true) := by
        intro a _ hand
        obtain ⟨h1, h2⟩ := hand
        exact hk (of_decide_eq_true h1 ▸ of_decide_eq_true h2)
      have hsplit := sum_filter_disjoint l (fun a => decide (key a = k))
        (fun a => decide (key a ∈ kt)) w hdisj
      have hcong : l.filter (fun a => decide (key a ∈ k :: kt))
          = l.filter (fun a => decide (key a = k) || decide (key a ∈ kt)) := by
        apply List.filter_congr
        intro a _
        simp [List.mem_cons]
      rw [hcong, hsplit]

/-- Grouping by a complete, pairwise-distinct key list and summing each
group recovers the total sum. -/
theorem sum_over_keys_complete {κ α : Type} [DecidableEq κ] (l : List α)
    (key : α → κ) (w : α → ℚ) (ks : List κ) (hnd : ks.Nodup)
    (hcov : ∀ a ∈ l, key a ∈ ks) :
    (ks.map (fun k => ((l.filter (fun a => key a = k)).map w).sum)).sum
      = (l.map w).sum := by
  rw [sum_over_keys l key w ks hnd]
  have hfull : l.filter (fun a => key a ∈ ks) = l :=
    List.filter_eq_self.2 (fun a ha => by simpa using hcov a ha)
  rw [hfull]

/-- C4: when every record carries a complete (non-missing) three-level
path — as the data model requires of harmonized records — the charge
summed over the hierarchy view's leaf groups equals the charge summed
over the whole record set: aggregation loses no charge mass. -/
theorem treemap_mass_conserved (df : List HRecord)
    (h : ∀ r ∈ df, key3ok r = true) :
    ((treemapLeaves df).map Prod.snd).sum = totalCharge df := by
  have hfull : df.filter key3ok = df := List.filter_eq_self.2 h
  have hnd : (treemapLeafKeys df).Nodup := nodup_uniqueFS _
  have h1 : ((treemapLeaves df).map Prod.snd).sum
      = ((treemapLeafKeys df).map (fun k =>
          ((df.filter (fun r => key3 r = k)).map (fun r => r.charge.getD 0)).sum)).sum := by
    rw [treemapLeaves, List.map_map]
    apply congrArg List.sum
    apply List.map_congr_left
    intro k _
    simp only [Function.comp_apply, hfull]
    exact sumCharges_eq _
  have hcov : ∀ r ∈ df, key3 r ∈ treemapLeafKeys df := by
    intro r hr
    rw [treemapLeafKeys, mem_uniqueFS, hfull]
    exact List.mem_map_of_mem _ hr
  rw [h1, sum_over_keys_complete df key3 (fun r => r.charge.getD 0)
    (treemapLeafKeys df) hnd hcov, totalCharge, sumCharges_eq]

/-- The harmonized record set of the scenario inputs. -/
def recsScen : List HRecord :=
  toRecords ((harmonize chargesScen locScen).toOption.getD { cols := [], rows := [] })

theorem treemap_mass_conserved_witness :
    ((treemapLeaves recsScen).map Prod.snd).sum = totalCharge recsScen
    ∧ totalCharge recsScen = 1000 :=
  ⟨treemap_mass_conserved recsScen (by decide), by decide⟩

/-- Association lookup over a key-tabulated list. -/
theorem alookup_map_tab {α β : Type} [DecidableEq α] (ks : List α) (f : α → β)
    (k : α) :
    alookup k (ks.map (fun x => (x, f x))) = if k ∈ ks then some (f k) else none := by
  induction ks with
  | nil => simp [alookup]
  | cons a t ih =>
      simp only [List.map_cons, alookup]
      by_cases hak : a = k
      · subst hak; simp
      · have hka : ¬k = a := fun hh => hak hh.symm
        simp [hak, ih, List.mem_cons, hka]

/-- Characterization of the `groupby` key pairs: the non-missing pairs
realized by at least one record. -/
theorem mem_groupKeys2 (df : List HRecord) (f g : HRecord → Value)
    (k1 k2 : Value) :
    (k1, k2) ∈ groupKeys2 df f g ↔
      k1 ≠ Value.null ∧ k2 ≠ Value.null ∧ ∃ r ∈ df, f r = k1 ∧ g r = k2 := by
  rw [groupKeys2, mem_uniqueFS]
  constructor
  · intro h
    obtain ⟨r, hr, hk⟩ := List.mem_map.1 h
    obtain ⟨hrdf, hcond⟩ := List.mem_filter.1 hr
    simp only [decide_eq_true_eq, ne_eq] at hcond
    obtain ⟨hk1, hk2⟩ := Prod.mk.injEq .. ▸ hk
    subst hk1; subst hk2
    push_neg at hcond
    exact ⟨hcond.1, hcond.2, r, hrdf, rfl, rfl⟩
  · rintro ⟨h1, h2, r, hr, hfr, hgr⟩
    refine List.mem_map.2 ⟨r, List.mem_filter.2 ⟨hr, ?_⟩, by rw [hfr, hgr]⟩
    simp [hfr, hgr, h1, h2]

/-- C3: the cross-tab view is a dense matrix. For every city in the
pivot's row domain and category in its column domain the cell holds a
value: the genuine median of the group's non-missing charges when the
group has observations, and the fill value zero otherwise (including the
pivot holes for pairs never observed together). -/
theorem crosstab_dense_matrix (df : List HRecord) :
    ∀ city ∈ heatRowDomain df, ∀ cat ∈ heatColDomain df,
      heatCell df city cat =
        (if ((groupRows2 df HRecord.provider_city HRecord.proc_category
              (city, cat)).filterMap HRecord.charge) ≠ [] then
          medianQ ((groupRows2 df HRecord.provider_city HRecord.proc_category
              (city, cat)).filterMap HRecord.charge)
        else 0) := by
  intro city hcity cat hcat
  have hcity2 : city ≠ Value.null := by
    rw [heatRowDomain, mem_uniqueFS] at hcity
    obtain ⟨⟨c1, c2⟩, hk, hk1⟩ := List.mem_map.1 hcity
    have hprop := (mem_groupKeys2 df _ _ c1 c2).1 hk
    exact hk1 ▸ hprop.1
  have hcat2 : cat ≠ Value.null := by
    rw [heatColDomain, mem_uniqueFS] at hcat
    obtain ⟨⟨c1, c2⟩, hk, hk2⟩ := List.mem_map.1 hcat
    have hprop := (mem_groupKeys2 df _ _ c1 c2).1 hk
    exact hk2 ▸ hprop.2.1
  rw [heatCell, heatGroups, alookup_map_tab]
  by_cases hmem : (city, cat) ∈ heatKeys df
  · rw [if_pos hmem]
    simp only [medianOpt]
    rcases hobs : (groupRows2 df HRecord.provider_city HRecord.proc_category
        (city, cat)).filterMap HRecord.charge with _ | ⟨q, obs⟩
    · simp
    · simp
  · have hrows : groupRows2 df HRecord.provider_city HRecord.proc_category
        (city, cat) = [] := by
      rw [groupRows2, List.filter_eq_nil_iff]
      intro r hr hcond
      simp only [decide_eq_true_eq] at hcond
      exact hmem ((mem_groupKeys2 df _ _ city cat).2
        ⟨hcity2, hcat2, r, hr, hcond.1, hcond.2⟩)
    rw [if_neg hmem, hrows]
    simp

/-- A record set with two cities and two categories but only three
observed combinations: the (Mobile, Oncology) pivot cell is a hole. -/
def dfHole : List HRecord :=
  [{ payer_type := Value.str "Private", proc_category := Value.str "Cardiology",
     proc_subcategory := Value.str "Stent",
     provider_city := Value.str "Birmingham", charge := some 100 },
   { payer_type := Value.str "Medicare", proc_category := Value.str "Oncology",
     proc_subcategory := Value.str "Radiation",
     provider_city := Value.str "Birmingham", charge := some 300 },
   { payer_type := Value.str "Medicaid", proc_category := Value.str "Cardiology",
     proc_subcategory := Value.str "CABG",
     provider_city := Value.str "Mobile", charge := some 200 }]

theorem crosstab_dense_matrix_witness :
    heatCell dfHole (Value.str "Mobile") (Value.str "Oncology")
      = (if ((groupRows2 dfHole HRecord.provider_city HRecord.proc_category
            (Value.str "Mobile", Value.str "Oncology")).filterMap HRecord.charge)
            ≠ [] then
          medianQ ((groupRows2 dfHole HRecord.provider_city HRecord.proc_category
            (Value.str "Mobile", Value.str "Oncology")).filterMap HRecord.charge)
        else 0)
    ∧ heatCell dfHole (Value.str "Mobile") (Value.str "Oncology") = 0
    ∧ heatCell dfHole (Value.str "Birmingham") (Value.str "Cardiology") = 100 :=
  ⟨crosstab_dense_matrix dfHole (Value.str "Mobile") (by decide)
     (Value.str "Oncology") (by decide),
   by decide, by decide⟩

theorem idxOfV_cons_self {α : Type} [DecidableEq α] (x : α) (t : List α) :
    idxOfV x (x :: t) = 0 := by simp [idxOfV]

theorem idxOfV_cons_ne {α : Type} [DecidableEq α] (x b : α) (t : List α)
    (hne : b ≠ x) : idxOfV x (b :: t) = idxOfV x t + 1 := by simp [idxOfV, hne]

/-- Filtering (with both probes surviving) preserves the relative order
of first occurrences. -/
theorem idxOfV_filter_lt_iff {α : Type} [DecidableEq α] (p : α → Bool)
    (l : List α) (x y : α) (hx : x ∈ l) (hy : y ∈ l)
    (hpx : p x = true) (hpy : p y = true) :
    (idxOfV x (l.filter p) < idxOfV y (l.filter p))
      ↔ (idxOfV x l < idxOfV y l) := by
  by_cases hxy : x = y
  · subst hxy; simp
  induction l with
  | nil => cases hx
  | cons b t ih =>
      by_cases hbx : b = x
      · subst hbx
        rw [List.filter_cons_of_pos hpx, idxOfV_cons_self, idxOfV_cons_self,
          idxOfV_cons_ne y b _ hxy, idxOfV_cons_ne y b _ hxy]
        omega
      · by_cases hby : b = y
        · subst hby
          rw [List.filter_cons_of_pos hpy, idxOfV_cons_self, idxOfV_cons_self,
            idxOfV_cons_ne x b _ hbx, idxOfV_cons_ne x b _ hbx]
          omega
        · have hx2 : x ∈ t := by
            rcases List.mem_cons.1 hx with h | h
            · exact absurd h.symm hbx
            · exact h
          have hy2 : y ∈ t := by
            rcases List.mem_cons.1 hy with h | h
            · exact absurd h.symm hby
            · exact h
          have hrec := ih hx2 hy2
          by_cases hpb : p b = true
          · rw [List.filter_cons_of_pos hpb, idxOfV_cons_ne x b _ hbx,
              idxOfV_cons_ne y b _ hby, idxOfV_cons_ne x b _ hbx,
              idxOfV_cons_ne y b _ hby]
            omega
          · rw [List.filter_cons_of_neg (by simpa using hpb),
              idxOfV_cons_ne x b _ hbx, idxOfV_cons_ne y b _ hby]
            omega

/-- First-seen deduplication preserves the relative order of first
occurrences: the dedup index comparison agrees with the first-occurrence
comparison in the underlying list. -/
theorem idxOfV_uniqueFS_lt_iff {α : Type} [DecidableEq α] (l : List α) (x y : α)
    (hx : x ∈ l) (hy : y ∈ l) :
    (idxOfV x (uniqueFS l) < idxOfV y (uniqueFS l))
      ↔ (idxOfV x l < idxOfV y l) := by
  induction l with
  | nil => cases hx
  | cons a t ih =>
      by_cases hax : a = x
      · subst hax
        by_cases hay : a = y
        · subst hay; simp
        · rw [uniqueFS, idxOfV_cons_self, idxOfV_cons_self,
            idxOfV_cons_ne y a _ hay, idxOfV_cons_ne y a _ hay]
          omega
      · by_cases hay : a = y
        · subst hay
          rw [uniqueFS, idxOfV_cons_self, idxOfV_cons_self,
            idxOfV_cons_ne x a _ hax, idxOfV_cons_ne x a _ hax]
          omega
        · have hx2 : x ∈ t := by
            rcases List.mem_cons.1 hx with h | h
            · exact absurd h.symm hax
            · exact h
          have hy2 : y ∈ t := by
            rcases List.mem_cons.1 hy with h | h
            · exact absurd h.symm hay
            · exact h
          have hL1 := idxOfV_filter_lt_iff (fun b => b ≠ a) (uniqueFS t) x y
            ((mem_uniqueFS t x).2 hx2) ((mem_uniqueFS t y).2 hy2)
            (by simp only [ne_eq, decide_eq_true_eq]; exact fun hh => hax hh.symm)
            (by simp only [ne_eq, decide_eq_true_eq]; exact fun hh => hay hh.symm)
          have hrec := ih hx2 hy2
          rw [uniqueFS, idxOfV_cons_ne x a _ hax, idxOfV_cons_ne y a _ hay,
            idxOfV_cons_ne x a _ hax, idxOfV_cons_ne y a _ hay]
          omega

/-- C2: structure of the flow view. The triples are exactly the two
adjacent stages payer→category and category→city concatenated (no triple
for the non-adjacent payer→city pair is produced); the node list is the
distinct union of the three dimension columns, duplicate-free, indexed
in first-seen order over their concatenation; every triple is the
grouped charge sum of a realized adjacent key pair mapped through the
node index; and every realized adjacent key pair contributes its triple. -/
theorem flow_view_structure (df : List HRecord) :
    flowTriples df
      = stageLinks df HRecord.payer_type HRecord.proc_category
        ++ stageLinks df HRecord.proc_category HRecord.provider_city
    ∧ (∀ v, v ∈ allNodes df ↔ v ∈ flowConcat df)
    ∧ (allNodes df).Nodup
    ∧ (∀ a b, a ∈ allNodes df → b ∈ allNodes df →
        (nodeIdx df a < nodeIdx df b ↔
          idxOfV a (flowConcat df) < idxOfV b (flowConcat df)))
    ∧ (∀ tr ∈ flowTriples df,
        (∃ x y, (x, y) ∈ groupKeys2 df HRecord.payer_type HRecord.proc_category
          ∧ tr = (nodeIdx df x, nodeIdx df y,
              sumCharges (groupRows2 df HRecord.payer_type HRecord.proc_category
                (x, y))))
        ∨ (∃ x y, (x, y) ∈ groupKeys2 df HRecord.proc_category HRecord.provider_city
          ∧ tr = (nodeIdx df x, nodeIdx df y,
              sumCharges (groupRows2 df HRecord.proc_category HRecord.provider_city
                (x, y)))))
    ∧ (∀ x y, (x, y) ∈ groupKeys2 df HRecord.payer_type HRecord.proc_category →
        (nodeIdx df x, nodeIdx df y,
         sumCharges (groupRows2 df HRecord.payer_type HRecord.proc_category (x, y)))
          ∈ flowTriples df)
    ∧ (∀ x y, (x, y) ∈ groupKeys2 df HRecord.proc_category HRecord.provider_city →
        (nodeIdx df x, nodeIdx df y,
         sumCharges (groupRows2 df HRecord.proc_category HRecord.provider_city
           (x, y)))
          ∈ flowTriples df) := by
  refine ⟨rfl, fun v => mem_uniqueFS _ v, nodup_uniqueFS _, ?_, ?_, ?_, ?_⟩
  · intro a b ha hb
    exact idxOfV_uniqueFS_lt_iff (flowConcat df) a b
      ((mem_uniqueFS _ a).1 ha) ((mem_uniqueFS _ b).1 hb)
  · intro tr htr
    rcases List.mem_append.1 htr with h | h
    · obtain ⟨⟨x, y⟩, hk, heq⟩ := List.mem_map.1 h
      exact Or.inl ⟨x, y, hk, heq.symm⟩
    · obtain ⟨⟨x, y⟩, hk, heq⟩ := List.mem_map.1 h
      exact Or.inr ⟨x, y, hk, heq.symm⟩
  · intro x y hk
    exact List.mem_append_left _ (List.mem_map.2 ⟨(x, y), hk, rfl⟩)
  · intro x y hk
    exact List.mem_append_right _ (List.mem_map.2 ⟨(x, y), hk, rfl⟩)

theorem flow_view_structure_witness :
    ((nodeIdx dfHole (Value.str "Private") < nodeIdx dfHole (Value.str "Cardiology"))
      ↔ (idxOfV (Value.str "Private") (flowConcat dfHole)
          < idxOfV (Value.str "Cardiology") (flowConcat dfHole)))
    ∧ (nodeIdx dfHole (Value.str "Private"),
       nodeIdx dfHole (Value.str "Cardiology"),
       sumCharges (groupRows2 dfHole HRecord.payer_type HRecord.proc_category
         (Value.str "Private", Value.str "Cardiology"))) ∈ flowTriples dfHole :=
  ⟨(flow_view_structure dfHole).2.2.2.1 (Value.str "Private")
     (Value.str "Cardiology") (by decide) (by decide),
   (flow_view_structure dfHole).2.2.2.2.2.1 (Value.str "Private")
     (Value.str "Cardiology") (by decide)⟩

/-- C10: KPI rendering is all-or-nothing. A mapping containing any value
that does not format as a number makes the whole `try` block raise, so
`kpi_div` keeps its initial empty value — no KPI table at all. -/
theorem kpi_all_or_nothing (kvs : List (String × Jval))
    (h : ∃ e ∈ kvs, e.2.isNum = false) :
    kpiDiv (KpiInput.mapping kvs) = "" := by
  have hnone : renderKpiRows kvs = none := by
    induction kvs with
    | nil => simp at h
    | cons a t ih =>
        obtain ⟨k, v⟩ := a
        obtain ⟨e, he, hne⟩ := h
        rcases List.mem_cons.1 he with rfl | he2
        · cases v <;> simp_all [renderKpiRows, fmtComma, Jval.isNum]
        · have hrec := ih ⟨e, he2, hne⟩
          cases hf : fmtComma v with
          | none => simp [renderKpiRows, hf]
          | some fv => simp [renderKpiRows, hf, hrec]
  simp [kpiDiv, hnone]

theorem kpi_all_or_nothing_witness :
    kpiDiv (KpiInput.mapping [("average_charge", Jval.num 250), ("note", Jval.str "n/a")]) = "" :=
  kpi_all_or_nothing _ ⟨("note", Jval.str "n/a"), by decide, by decide⟩

end Scatter2
